import Mathlib

/-!
Verification of the identity-matching and attendance subsystem of the
Absensi-IoT server (sources: `server_main.py`, `_data_persistance.py`,
`training_embedding.py`).

Modelling conventions:
* Python floats are modelled by real numbers `ℝ`; the Python float infinity is the
  top element of `EReal`, into which finite distances are coerced.
* numpy arrays are modelled by `List ℝ` (value level) or by `List Nat` of
  32-bit patterns (for the persistence layer, where only the byte encoding
  of `float32` values matters, never their arithmetic).
* The sqlite tables are modelled by lists of row structures.  sqlite raises
  `sqlite3.Error` on storage faults; a fallible query is passed in as an
  `Except String` value, matching the `try/except sqlite3.Error` blocks.
-/

namespace Absensi

/-- One enrolled identity as held in the in-memory working roster of the server
(`MAGANG_EMBEDDINGS` entries produced by `load_all_magang_embeddings`). -/
structure Magang where
  id : String
  name : String
  embedding : List ℝ

/-- Model of `np.dot(emb1.flatten(), emb2.flatten())`: sum of pairwise products. -/
def np_dot (a b : List ℝ) : ℝ := (List.zipWith (· * ·) a b).sum

/-- Model of `np.linalg.norm(v)`: the L2 norm, square root of the sum of squares. -/
noncomputable def np_linalg_norm (v : List ℝ) : ℝ :=
  Real.sqrt ((v.map (fun x => x * x)).sum)

/-- The constant `SIMILARITY_THRESHOLD = 0.95` from `server_main.py`. -/
noncomputable def SIMILARITY_THRESHOLD : ℝ := 0.95

/-- Model of `calculate_cosine_distance` from `server_main.py` lines 36-46: returns
`1.0` when either norm is zero, otherwise `1 - dot/(‖a‖·‖b‖)`. -/
noncomputable def calculate_cosine_distance (emb1 emb2 : List ℝ) : ℝ :=
  let dot_product := np_dot emb1 emb2
  let norm_emb1 := np_linalg_norm emb1
  let norm_emb2 := np_linalg_norm emb2
  if norm_emb1 = 0 ∨ norm_emb2 = 0 then 1.0
  else 1 - dot_product / (norm_emb1 * norm_emb2)

/-- Distance of the live embedding to one roster entry. -/
noncomputable def distOf (live : List ℝ) (m : Magang) : ℝ :=
  calculate_cosine_distance live m.embedding

/-- One iteration of the scan loop in `recognize_face` (lines 57-64):
state is `(best_match_id, min_distance, best_match_name)`; the entry
replaces the state iff its distance is strictly below the running
minimum (the Python float infinity initially, modelled as `⊤ : EReal`). -/
noncomputable def scanStep (live : List ℝ) (st : String × EReal × String)
    (m : Magang) : String × EReal × String :=
  if (distOf live m : EReal) < st.2.1 then (m.id, (distOf live m : EReal), m.name)
  else st

/-- Model of `recognize_face` from `server_main.py` lines 48-69.  Empty roster:
immediately `("UNKNOWN", 999.0, "UNKNOWN")`.  Otherwise scan for the
minimum cosine distance, then apply the threshold rule
`min_distance > SIMILARITY_THRESHOLD → UNKNOWN`. -/
noncomputable def recognize_face (roster : List Magang) (live : List ℝ) :
    String × EReal × String :=
  if roster.isEmpty then ("UNKNOWN", (999 : EReal), "UNKNOWN")
  else
    let st := roster.foldl (scanStep live) ("UNKNOWN", (⊤ : EReal), "UNKNOWN")
    if (SIMILARITY_THRESHOLD : EReal) < st.2.1 then ("UNKNOWN", st.2.1, "UNKNOWN")
    else st

/-- Claim C4: for every live embedding, `recognize_face` on an empty roster
returns `("UNKNOWN", 999.0, "UNKNOWN")` immediately (the early return on
line 50-51 performs no scan and no distance computation: the result does
not depend on `live`). -/
theorem recognize_face_empty_roster (live : List ℝ) :
    recognize_face [] live = ("UNKNOWN", (999 : EReal), "UNKNOWN") := by
  simp [recognize_face]

/-- Claim C3: if either argument has L2 norm zero, `calculate_cosine_distance`
returns exactly `1.0`; the guard on line 42 short-circuits before the
division, so the quotient `dot/(‖a‖·‖b‖)` is never formed. -/
theorem calculate_cosine_distance_zero_norm (emb1 emb2 : List ℝ)
    (h : np_linalg_norm emb1 = 0 ∨ np_linalg_norm emb2 = 0) :
    calculate_cosine_distance emb1 emb2 = 1 := by
  simp only [calculate_cosine_distance]
  rw [if_pos h]
  norm_num

theorem calculate_cosine_distance_zero_norm_witness :
    np_linalg_norm [(0 : ℝ)] = 0 ∧ calculate_cosine_distance [(0 : ℝ)] [3, 4] = 1 := by
  have h0 : np_linalg_norm [(0 : ℝ)] = 0 := by
    simp [np_linalg_norm]
  exact ⟨h0, calculate_cosine_distance_zero_norm [(0 : ℝ)] [3, 4] (Or.inl h0)⟩

/-! ## Persistence layer: the `magang` table (`_data_persistance.py`) -/

/-- One row of the sqlite `magang` table
(`id TEXT PRIMARY KEY, nama TEXT NOT NULL, master_embedding BLOB NOT NULL,
last_updated TEXT`).  The blob payload type is a parameter: `List Nat` of
bytes for the persistence layer, `List ℝ` for the training layer where the
byte encoding is irrelevant. -/
structure MagangRow (E : Type) where
  id : String
  nama : String
  master_embedding : E
  last_updated : String

/-- Semantics of `INSERT OR REPLACE` keyed on the TEXT primary key `id`: any existing
row with the same `id` is deleted and the new row inserted (it receives a
fresh rowid, so it scans last). -/
def upsertRow {E : Type} (table : List (MagangRow E)) (row : MagangRow E) :
    List (MagangRow E) :=
  table.filter (fun r => r.id != row.id) ++ [row]

/-- Model of `arr.astype(np.float32).tobytes()` on an array of 32-bit patterns:
each word becomes its four little-endian bytes. -/
def f32_tobytes : List Nat → List Nat
  | [] => []
  | x :: xs =>
      x % 256 :: x / 256 % 256 :: x / 65536 % 256 :: x / 16777216 % 256 ::
        f32_tobytes xs

/-- Model of `np.frombuffer(blob, dtype=np.float32)`: groups of four little-endian
bytes are reassembled into 32-bit words. -/
def np_frombuffer : List Nat → List Nat
  | b0 :: b1 :: b2 :: b3 :: rest =>
      (b0 + 256 * b1 + 65536 * b2 + 16777216 * b3) :: np_frombuffer rest
  | _ => []

/-- Model of `save_new_magang` from `_data_persistance.py` lines 71-98 (success
path): converts the embedding to its float32 byte blob and performs
`INSERT OR REPLACE` with the current time as `last_updated`. -/
def save_new_magang (table : List (MagangRow (List Nat)))
    (magang_id magang_name : String) (embedding_array : List Nat)
    (current_time : String) : List (MagangRow (List Nat)) :=
  upsertRow table
    ⟨magang_id, magang_name, f32_tobytes embedding_array, current_time⟩

/-- One entry of the list built by `load_all_magang_embeddings`
(a dict with keys id, name and embedding, the last one decoded by
`np.frombuffer`). -/
structure LoadedMagang where
  id : String
  name : String
  embedding : List Nat

/-- Model of `load_all_magang_embeddings` from `_data_persistance.py` lines 100-130
(success path): every row is decoded, the blob via `np.frombuffer`. -/
def load_all_magang_embeddings (table : List (MagangRow (List Nat))) :
    List LoadedMagang :=
  table.map (fun r => ⟨r.id, r.nama, np_frombuffer r.master_embedding⟩)

/-! ## Persistence layer: the `absensi` table -/

/-- One row of the sqlite `absensi` table
(`id INTEGER PRIMARY KEY, magang_id TEXT, nama TEXT, timestamp TEXT,
type TEXT DEFAULT MASUK`). -/
structure AbsensiRow where
  log_id : Nat
  magang_id : String
  nama : String
  timestamp : String
  type : String

/-- sqlite assigns an omitted `INTEGER PRIMARY KEY` as max existing key
plus one. -/
def nextLogId (ledger : List AbsensiRow) : Nat :=
  (ledger.map AbsensiRow.log_id).foldr max 0 + 1

/-- Model of `update_absensi_log` from `_data_persistance.py` lines 161-182 (success
path of the `INSERT INTO absensi` statement): appends one row carrying the
explicit `log_time` and `log_type`. -/
def update_absensi_log (ledger : List AbsensiRow)
    (magang_id magang_name log_time log_type : String) : List AbsensiRow :=
  ledger ++ [⟨nextLogId ledger, magang_id, magang_name, log_time, log_type⟩]

/-- Python call semantics for `update_absensi_log`: after the connection
argument `db_name`, the function has three more required parameters
(`magang_id`, `magang_name`, `log_time`) and one defaulted parameter
(`log_type`, defaulting to MASUK).  A call supplying any other number of arguments
raises `TypeError` (`none`). -/
def call_update_absensi_log (ledger : List AbsensiRow) (args : List String) :
    Option (List AbsensiRow) :=
  match args with
  | [a, b, c] => some (update_absensi_log ledger a b c "MASUK")
  | [a, b, c, d] => some (update_absensi_log ledger a b c d)
  | _ => none

/-- The lower bound string built from `date.today()` on line 139: the current
date followed by the literal time 00:00:00, i.e. the start of the current
calendar day, midnight inclusive. -/
def todayStart (today : String) : String := today ++ " 00:00:00"

/-- Model of `check_already_absen` from `_data_persistance.py` lines 132-159.  The
sqlite query (`SELECT 1 FROM absensi WHERE magang_id = ? AND type = ? AND
timestamp >= ? LIMIT 1`) is modelled on the fallible table contents: a
raised `sqlite3.Error` is the `.error` case, and the `except` block on
lines 153-155 turns it into `false`.  TEXT `>=` is lexicographic string
order. -/
def check_already_absen (dbq : Except String (List AbsensiRow))
    (magang_id log_type today : String) : Bool :=
  match dbq with
  | .error _ => false
  | .ok rows =>
      rows.any (fun r =>
        r.magang_id == magang_id && r.type == log_type &&
          decide (todayStart today ≤ r.timestamp))

/-! ## Training aggregation (`training_embedding.py`) -/

/-- Element-wise sum of a non-empty batch of arrays, as numpy reduces
along `axis=0` (the empty batch never reaches the mean: the caller skips
it first). -/
def vecSum : List (List ℝ) → List ℝ
  | [] => []
  | v :: rest => rest.foldl (fun acc w => List.zipWith (· + ·) acc w) v

/-- Model of `np.mean(embeddings, axis=0)`: element-wise sum divided by the number
of arrays. -/
noncomputable def np_mean_axis0 (embs : List (List ℝ)) : List ℝ :=
  (vecSum embs).map (fun x => x / (embs.length : ℝ))

/-- The per-identity tail of `process_and_save_embeddings`
(`training_embedding.py` lines 133-143): with no usable embeddings the
identity is skipped (`continue`, contributing 0 to
`total_wajah_diproses`); otherwise the element-wise mean is stored via
`save_new_magang` and `len(embeddings)` is added to the count.  The store
step is modelled at the value level (`upsertRow` on real-vector rows). -/
noncomputable def process_identity (table : List (MagangRow (List ℝ)))
    (magang_id magang_name : String) (embeddings : List (List ℝ))
    (now : String) : List (MagangRow (List ℝ)) × Nat :=
  if embeddings.isEmpty then (table, 0)
  else (upsertRow table ⟨magang_id, magang_name, np_mean_axis0 embeddings, now⟩,
        embeddings.length)

/-! ## The `/absensi` endpoint (`server_main.py` lines 161-191) -/

/-- The three ways the endpoint terminates after recognition: HTTP 200
SUCCESS, HTTP 403 FAIL (unknown face), HTTP 500 via the generic
`except Exception` handler on lines 193-198. -/
inductive EndpointOutcome where
  | success (magang_id nama : String) (distance : EReal)
  | fail (distance : EReal)
  | serverError

/-- The decision logic of `absensi_endpoint` from recognition onward
(lines 161-191): on `id_magang != "UNKNOWN"` the source executes
`db.update_absensi_log(DATABASE_NAME, id_magang, nama)` — after the
connection argument this supplies the two arguments `[id_magang, nama]` —
and then builds the SUCCESS response; an exception from the call falls
through to the generic handler, which returns the 500 outcome with the
ledger untouched. -/
noncomputable def absensi_endpoint (roster : List Magang) (live : List ℝ)
    (ledger : List AbsensiRow) : EndpointOutcome × List AbsensiRow :=
  let r := recognize_face roster live
  if r.1 ≠ "UNKNOWN" then
    match call_update_absensi_log ledger [r.1, r.2.2] with
    | some ledger2 => (.success r.1 r.2.2 r.2.1, ledger2)
    | none => (.serverError, ledger)
  else (.fail r.2.1, ledger)

/-! ## Theorems for the ledger claims -/

/-- Claim C7: `check_already_absen` on a readable ledger is true exactly
when some row has the given `magang_id` and `type` and a timestamp at or
after the start of the current day (lexicographic TEXT comparison against
the start-of-day bound, midnight inclusive). -/
theorem check_already_absen_iff (rows : List AbsensiRow)
    (magang_id log_type today : String) :
    check_already_absen (.ok rows) magang_id log_type today = true ↔
      ∃ r ∈ rows, r.magang_id = magang_id ∧ r.type = log_type ∧
        todayStart today ≤ r.timestamp := by
  simp [check_already_absen, List.any_eq_true, and_assoc]

/-- Claim C9: when the storage query raises (`sqlite3.Error`), the
`except` block of `check_already_absen` returns `False`: the per-day
check fails open. -/
theorem check_already_absen_error (err : String)
    (magang_id log_type today : String) :
    check_already_absen (.error err) magang_id log_type today = false := rfl

/-- Claim C6: an identity with an empty embedding list is skipped
entirely by `process_and_save_embeddings`: the table is unchanged, no
record is written, and the count contributed for it is 0. -/
theorem process_identity_empty (table : List (MagangRow (List ℝ)))
    (magang_id magang_name now : String) :
    process_identity table magang_id magang_name [] now = (table, 0) := by
  simp [process_identity]

/-! ## Theorems for the `magang` store claims -/

/-- After an upsert, the rows carrying the upserted id are exactly the
single new row (shared helper for the store claims). -/
theorem upsert_filter_self {E : Type} (table : List (MagangRow E))
    (row : MagangRow E) :
    (upsertRow table row).filter (fun r => r.id == row.id) = [row] := by
  simp only [upsertRow, List.filter_append]
  rw [List.filter_eq_nil_iff.mpr, List.nil_append]
  · simp
  · intro a ha
    have := List.of_mem_filter ha
    simp_all

/-- The ids of an upserted table form a sublist-compatible set: filtering
keeps `Nodup` and the new id occurs once at the end (shared helper). -/
theorem upsert_map_id_nodup {E : Type} (table : List (MagangRow E))
    (row : MagangRow E)
    (h : (table.map MagangRow.id).Nodup) :
    ((upsertRow table row).map MagangRow.id).Nodup := by
  simp only [upsertRow, List.map_append]
  rw [List.nodup_append]
  refine ⟨?_, List.nodup_singleton _, ?_⟩
  · exact h.sublist ((List.filter_sublist table).map MagangRow.id)
  · intro a ha hb
    simp only [List.mem_map] at ha
    obtain ⟨r, hr, rfl⟩ := ha
    have hne := List.of_mem_filter hr
    simp only [bne_iff_ne, ne_eq] at hne
    simp only [List.map_cons, List.map_nil, List.mem_singleton] at hb
    exact hne hb

/-- Claim C8: `save_new_magang` preserves the at-most-one-record-per-id
invariant; upserting an existing id replaces the prior record wholesale —
afterwards the rows with that id are exactly the one new row, carrying the
new name, the new embedding blob and the new `last_updated`. -/
theorem save_new_magang_upsert (table : List (MagangRow (List Nat)))
    (magang_id magang_name : String) (embedding_array : List Nat)
    (current_time : String)
    (h : (table.map MagangRow.id).Nodup) :
    ((save_new_magang table magang_id magang_name embedding_array
        current_time).map MagangRow.id).Nodup ∧
    (save_new_magang table magang_id magang_name embedding_array
        current_time).filter (fun r => r.id == magang_id) =
      [⟨magang_id, magang_name, f32_tobytes embedding_array, current_time⟩] := by
  constructor
  · exact upsert_map_id_nodup table _ h
  · exact upsert_filter_self table
      ⟨magang_id, magang_name, f32_tobytes embedding_array, current_time⟩

theorem save_new_magang_upsert_witness :
    (([⟨"A001", "Old", [0], "t0"⟩, ⟨"B002", "Bob", [1], "t0"⟩] :
        List (MagangRow (List Nat))).map MagangRow.id).Nodup ∧
    ((save_new_magang [⟨"A001", "Old", [0], "t0"⟩, ⟨"B002", "Bob", [1], "t0"⟩]
        "A001" "Ana" [5] "t1").map MagangRow.id).Nodup ∧
    (save_new_magang [⟨"A001", "Old", [0], "t0"⟩, ⟨"B002", "Bob", [1], "t0"⟩]
        "A001" "Ana" [5] "t1").filter (fun r => r.id == "A001") =
      [⟨"A001", "Ana", f32_tobytes [5], "t1"⟩] := by
  have h : (([⟨"A001", "Old", [0], "t0"⟩, ⟨"B002", "Bob", [1], "t0"⟩] :
      List (MagangRow (List Nat))).map MagangRow.id).Nodup := by
    simp
  have := save_new_magang_upsert
    [⟨"A001", "Old", [0], "t0"⟩, ⟨"B002", "Bob", [1], "t0"⟩]
    "A001" "Ana" [5] "t1" h
  exact ⟨h, this.1, this.2⟩

/-- Round trip of the blob encoding: four little-endian bytes per 32-bit
word reassemble to the original word list. -/
theorem np_frombuffer_f32_tobytes (w : List Nat)
    (h : ∀ x ∈ w, x < 4294967296) :
    np_frombuffer (f32_tobytes w) = w := by
  induction w with
  | nil => rfl
  | cons x xs ih =>
      have hx : x < 4294967296 := h x (List.mem_cons_self x xs)
      have hxs : ∀ y ∈ xs, y < 4294967296 := fun y hy => h y (List.mem_cons_of_mem x hy)
      simp only [f32_tobytes, np_frombuffer, ih hxs, List.cons.injEq, and_true]
      omega

/-- Claim C10: storing an embedding with `save_new_magang` and reading it
back with `load_all_magang_embeddings` round-trips through the float32
byte blob: the loaded record for that id carries exactly the stored
32-bit-pattern vector (for inputs already in float32, `astype(np.float32)`
is the identity, so the round trip is the identity). -/
theorem load_after_save_roundtrip (table : List (MagangRow (List Nat)))
    (magang_id magang_name : String) (embedding_array : List Nat)
    (current_time : String)
    (h : ∀ x ∈ embedding_array, x < 4294967296) :
    (load_all_magang_embeddings
        (save_new_magang table magang_id magang_name embedding_array
          current_time)).filter (fun r => r.id == magang_id) =
      [⟨magang_id, magang_name, embedding_array⟩] := by
  unfold load_all_magang_embeddings
  rw [List.filter_map]
  have hf : (save_new_magang table magang_id magang_name embedding_array
      current_time).filter
        ((fun r : LoadedMagang => r.id == magang_id) ∘
          (fun r : MagangRow (List Nat) =>
            (⟨r.id, r.nama, np_frombuffer r.master_embedding⟩ : LoadedMagang))) =
      [⟨magang_id, magang_name, f32_tobytes embedding_array, current_time⟩] := by
    have := upsert_filter_self table
      (⟨magang_id, magang_name, f32_tobytes embedding_array, current_time⟩ :
        MagangRow (List Nat))
    simpa [save_new_magang, Function.comp] using this
  rw [hf]
  simp [np_frombuffer_f32_tobytes embedding_array h]

theorem load_after_save_roundtrip_witness :
    (∀ x ∈ [(7 : Nat), 4294967295], x < 4294967296) ∧
    (load_all_magang_embeddings
        (save_new_magang [] "A001" "Ana" [7, 4294967295] "t1")).filter
          (fun r => r.id == "A001") =
      [⟨"A001", "Ana", [7, 4294967295]⟩] := by
  have h : ∀ x ∈ [(7 : Nat), 4294967295], x < 4294967296 := by decide
  exact ⟨h, load_after_save_roundtrip [] "A001" "Ana" [7, 4294967295] "t1" h⟩

/-! ## Theorems for the training-aggregation claims -/

theorem getD_zipWith_add (a b : List ℝ) (i : Nat) (hia : i < a.length)
    (hib : i < b.length) :
    (List.zipWith (· + ·) a b).getD i 0 = a.getD i 0 + b.getD i 0 := by
  induction a generalizing b i with
  | nil => simp at hia
  | cons x xs ih =>
      cases b with
      | nil => simp at hib
      | cons y ys =>
          cases i with
          | zero => simp
          | succ j =>
              simpa using ih ys j (by simpa using hia) (by simpa using hib)

theorem foldl_zipWith_add_length (rest : List (List ℝ)) (acc : List ℝ)
    (dim : Nat) (hacc : acc.length = dim) (hrest : ∀ e ∈ rest, e.length = dim) :
    (rest.foldl (fun acc w => List.zipWith (· + ·) acc w) acc).length = dim := by
  induction rest generalizing acc with
  | nil => simpa
  | cons w ws ih =>
      have hw : w.length = dim := hrest w (List.mem_cons_self w ws)
      have hws : ∀ e ∈ ws, e.length = dim := fun e he =>
        hrest e (List.mem_cons_of_mem w he)
      simp only [List.foldl_cons]
      exact ih (List.zipWith (· + ·) acc w)
        (by simp [List.length_zipWith, hacc, hw]) hws

theorem foldl_zipWith_add_getD (rest : List (List ℝ)) (acc : List ℝ)
    (dim i : Nat) (hacc : acc.length = dim)
    (hrest : ∀ e ∈ rest, e.length = dim) (hi : i < dim) :
    (rest.foldl (fun acc w => List.zipWith (· + ·) acc w) acc).getD i 0 =
      acc.getD i 0 + (rest.map (fun e => e.getD i 0)).sum := by
  induction rest generalizing acc with
  | nil => simp
  | cons w ws ih =>
      have hw : w.length = dim := hrest w (List.mem_cons_self w ws)
      have hws : ∀ e ∈ ws, e.length = dim := fun e he =>
        hrest e (List.mem_cons_of_mem w he)
      have hzl : (List.zipWith (· + ·) acc w).length = dim := by
        simp [List.length_zipWith, hacc, hw]
      simp only [List.foldl_cons, List.map_cons, List.sum_cons]
      rw [ih (List.zipWith (· + ·) acc w) hzl hws,
        getD_zipWith_add acc w i (by omega) (by omega)]
      ring

theorem vecSum_length (embs : List (List ℝ)) (dim : Nat) (hne : embs ≠ [])
    (hdim : ∀ e ∈ embs, e.length = dim) : (vecSum embs).length = dim := by
  match embs, hne with
  | v :: rest, _ =>
      exact foldl_zipWith_add_length rest v dim
        (hdim v (List.mem_cons_self v rest))
        (fun e he => hdim e (List.mem_cons_of_mem v he))

theorem vecSum_getD (embs : List (List ℝ)) (dim i : Nat) (hne : embs ≠ [])
    (hdim : ∀ e ∈ embs, e.length = dim) (hi : i < dim) :
    (vecSum embs).getD i 0 = (embs.map (fun e => e.getD i 0)).sum := by
  match embs, hne with
  | v :: rest, _ =>
      simp only [vecSum, List.map_cons, List.sum_cons]
      exact foldl_zipWith_add_getD rest v dim i
        (hdim v (List.mem_cons_self v rest))
        (fun e he => hdim e (List.mem_cons_of_mem v he)) hi

theorem getD_map_div (l : List ℝ) (c : ℝ) (i : Nat) (hi : i < l.length) :
    (l.map (fun x => x / c)).getD i 0 = l.getD i 0 / c := by
  have h : l[i]? = some l[i] := List.getElem?_eq_getElem hi
  rw [List.getD_eq_getElem?_getD, List.getD_eq_getElem?_getD,
    List.getElem?_map, h]
  simp

/-- Claim C5: for a non-empty collection of equal-dimension embeddings the
per-identity step stores the element-wise mean (`np.mean(embeddings,
axis=0)`): the upserted record carries `np_mean_axis0 embeddings`, whose
length is the common dimension and whose every coordinate is the sum of
that coordinate over the inputs divided by the number of inputs. -/
theorem process_identity_stores_mean (table : List (MagangRow (List ℝ)))
    (magang_id magang_name now : String) (embeddings : List (List ℝ))
    (dim : Nat) (hne : embeddings ≠ [])
    (hdim : ∀ e ∈ embeddings, e.length = dim) :
    process_identity table magang_id magang_name embeddings now =
      (upsertRow table ⟨magang_id, magang_name, np_mean_axis0 embeddings, now⟩,
        embeddings.length) ∧
    (np_mean_axis0 embeddings).length = dim ∧
    ∀ i, i < dim →
      (np_mean_axis0 embeddings).getD i 0 =
        (embeddings.map (fun e => e.getD i 0)).sum / (embeddings.length : ℝ) := by
  refine ⟨?_, ?_, ?_⟩
  · simp [process_identity, List.isEmpty_iff, hne]
  · simp [np_mean_axis0, vecSum_length embeddings dim hne hdim]
  · intro i hi
    have hlen : i < (vecSum embeddings).length := by
      rw [vecSum_length embeddings dim hne hdim]; exact hi
    simp only [np_mean_axis0]
    rw [getD_map_div _ _ i hlen, vecSum_getD embeddings dim i hne hdim hi]

theorem process_identity_stores_mean_witness :
    ([[(1 : ℝ), 2], [3, 4]] : List (List ℝ)) ≠ [] ∧
    (∀ e ∈ ([[(1 : ℝ), 2], [3, 4]] : List (List ℝ)), e.length = 2) ∧
    (process_identity [] "A001" "Ana" [[(1 : ℝ), 2], [3, 4]] "t" =
      (upsertRow [] ⟨"A001", "Ana", np_mean_axis0 [[(1 : ℝ), 2], [3, 4]], "t"⟩,
        ([[(1 : ℝ), 2], [3, 4]] : List (List ℝ)).length) ∧
    (np_mean_axis0 [[(1 : ℝ), 2], [3, 4]]).length = 2 ∧
    ∀ i, i < 2 →
      (np_mean_axis0 [[(1 : ℝ), 2], [3, 4]]).getD i 0 =
        (([[(1 : ℝ), 2], [3, 4]] : List (List ℝ)).map
          (fun e => e.getD i 0)).sum /
          (([[(1 : ℝ), 2], [3, 4]] : List (List ℝ)).length : ℝ)) := by
  have hne : ([[(1 : ℝ), 2], [3, 4]] : List (List ℝ)) ≠ [] := by simp
  have hdim : ∀ e ∈ ([[(1 : ℝ), 2], [3, 4]] : List (List ℝ)), e.length = 2 := by
    intro e he
    simp only [List.mem_cons, List.not_mem_nil, or_false] at he
    rcases he with rfl | rfl <;> rfl
  exact ⟨hne, hdim,
    process_identity_stores_mean [] "A001" "Ana" "t" [[(1 : ℝ), 2], [3, 4]] 2
      hne hdim⟩

/-! ## Theorems for the recognition-scan claim -/

/-- If no roster entry beats the running minimum, the scan loop leaves the
state unchanged. -/
theorem scan_no_improve (live : List ℝ) (l : List Magang)
    (st : String × EReal × String)
    (h : ∀ m ∈ l, ¬ ((distOf live m : EReal) < st.2.1)) :
    l.foldl (scanStep live) st = st := by
  induction l generalizing st with
  | nil => rfl
  | cons a t ih =>
      have ha : ¬ ((distOf live a : EReal) < st.2.1) :=
        h a (List.mem_cons_self a t)
      rw [List.foldl_cons]
      have hstep : scanStep live st a = st := by
        simp only [scanStep, if_neg ha]
      rw [hstep]
      exact ih st (fun m hm => h m (List.mem_cons_of_mem a hm))

/-- If position `k` holds the first entry achieving the overall minimum
distance, and that distance beats the incoming running minimum, the scan
loop ends in exactly the state carrying that entry. -/
theorem scan_improve (live : List ℝ) (l : List Magang) :
    ∀ (k : Nat) (hk : k < l.length) (st : String × EReal × String),
      (distOf live (l.get ⟨k, hk⟩) : EReal) < st.2.1 →
      (∀ m ∈ l, distOf live (l.get ⟨k, hk⟩) ≤ distOf live m) →
      (∀ j (hj : j < k), distOf live (l.get ⟨k, hk⟩) <
        distOf live (l.get ⟨j, hj.trans hk⟩)) →
      l.foldl (scanStep live) st =
        ((l.get ⟨k, hk⟩).id, (distOf live (l.get ⟨k, hk⟩) : EReal),
          (l.get ⟨k, hk⟩).name) := by
  induction l with
  | nil =>
      intro k hk
      exact absurd hk (by simp)
  | cons a t ih =>
      intro k hk st hlt hmin hfirst
      cases k with
      | zero =>
          rw [List.foldl_cons]
          have hlt0 : (distOf live a : EReal) < st.2.1 := hlt
          have hstep : scanStep live st a =
              (a.id, (distOf live a : EReal), a.name) := by
            simp only [scanStep]
            rw [if_pos hlt0]
          rw [hstep]
          exact scan_no_improve live t _ (fun m hm =>
            not_lt.mpr (EReal.coe_le_coe_iff.mpr
              (hmin m (List.mem_cons_of_mem a hm))))
      | succ j =>
          have hjk : j < t.length := Nat.succ_lt_succ_iff.mp hk
          have hget : (a :: t).get ⟨j + 1, hk⟩ = t.get ⟨j, hjk⟩ := rfl
          rw [List.foldl_cons]
          have hmin2 : ∀ m ∈ t, distOf live (t.get ⟨j, hjk⟩) ≤ distOf live m := by
            intro m hm
            have := hmin m (List.mem_cons_of_mem a hm)
            rwa [hget] at this
          have hfirst2 : ∀ i (hi : i < j),
              distOf live (t.get ⟨j, hjk⟩) <
                distOf live (t.get ⟨i, hi.trans hjk⟩) := by
            intro i hi
            have := hfirst (i + 1) (Nat.succ_lt_succ hi)
            rwa [hget] at this
          have ha : distOf live (t.get ⟨j, hjk⟩) < distOf live a := by
            have := hfirst 0 (Nat.succ_pos j)
            rwa [hget] at this
          have hlt2 : (distOf live (t.get ⟨j, hjk⟩) : EReal) <
              (scanStep live st a).2.1 := by
            by_cases hc : (distOf live a : EReal) < st.2.1
            · have hs : scanStep live st a =
                  (a.id, (distOf live a : EReal), a.name) := by
                simp only [scanStep]
                rw [if_pos hc]
              rw [hs]
              exact EReal.coe_lt_coe_iff.mpr ha
            · have hs : scanStep live st a = st := by
                simp only [scanStep]
                rw [if_neg hc]
              rw [hs]
              rw [hget] at hlt
              exact hlt
          rw [hget]
          exact ih j hjk (scanStep live st a) hlt2 hmin2 hfirst2

/-- Every non-empty list of reals has a first index achieving the minimum
value. -/
theorem exists_first_argmin (f : Magang → ℝ) (l : List Magang) (h : l ≠ []) :
    ∃ (k : Nat) (hk : k < l.length),
      (∀ m ∈ l, f (l.get ⟨k, hk⟩) ≤ f m) ∧
      (∀ j (hj : j < k), f (l.get ⟨k, hk⟩) < f (l.get ⟨j, hj.trans hk⟩)) := by
  induction l with
  | nil => exact absurd rfl h
  | cons a t ih =>
      cases t with
      | nil =>
          refine ⟨0, by simp, ?_, ?_⟩
          · intro m hm
            simp only [List.mem_cons, List.not_mem_nil, or_false] at hm
            subst hm
            exact le_refl _
          · intro j hj
            exact absurd hj (Nat.not_lt_zero j)
      | cons b u =>
          obtain ⟨k, hk, hmink, hfirstk⟩ := ih (by simp)
          by_cases hc : f a ≤ f ((b :: u).get ⟨k, hk⟩)
          · refine ⟨0, Nat.succ_pos _, ?_, ?_⟩
            · intro m hm
              rcases List.mem_cons.mp hm with rfl | hm2
              · exact le_refl _
              · exact le_trans hc (hmink m hm2)
            · intro j hj
              exact absurd hj (Nat.not_lt_zero j)
          · push_neg at hc
            refine ⟨k + 1, Nat.succ_lt_succ hk, ?_, ?_⟩
            · intro m hm
              rcases List.mem_cons.mp hm with rfl | hm2
              · exact le_of_lt hc
              · exact hmink m hm2
            · intro j hj
              cases j with
              | zero => exact hc
              | succ i => exact hfirstk i (Nat.succ_lt_succ_iff.mp hj)

/-- Claim C2: for a non-empty roster, `recognize_face` scans for the
minimum cosine distance; the index `k` below is the first roster position
achieving the minimum (strictly smaller than every earlier entry, no
larger than every entry), and the result is either the UNKNOWN triple
when the minimum exceeds `SIMILARITY_THRESHOLD` or the id and name of
that first-encountered best entry together with the minimum distance. -/
theorem recognize_face_first_argmin (roster : List Magang) (live : List ℝ)
    (h : roster ≠ []) :
    ∃ (k : Nat) (hk : k < roster.length),
      (∀ m ∈ roster, distOf live (roster.get ⟨k, hk⟩) ≤ distOf live m) ∧
      (∀ j (hj : j < k), distOf live (roster.get ⟨k, hk⟩) <
        distOf live (roster.get ⟨j, hj.trans hk⟩)) ∧
      recognize_face roster live =
        (if SIMILARITY_THRESHOLD < distOf live (roster.get ⟨k, hk⟩)
         then ("UNKNOWN", (distOf live (roster.get ⟨k, hk⟩) : EReal), "UNKNOWN")
         else ((roster.get ⟨k, hk⟩).id,
           (distOf live (roster.get ⟨k, hk⟩) : EReal),
           (roster.get ⟨k, hk⟩).name)) := by
  obtain ⟨k, hk, hmin, hfirst⟩ :=
    exists_first_argmin (fun m => distOf live m) roster h
  refine ⟨k, hk, hmin, hfirst, ?_⟩
  have hscan := scan_improve live roster k hk
    ("UNKNOWN", (⊤ : EReal), "UNKNOWN")
    (EReal.coe_lt_top _) hmin hfirst
  have hne : roster.isEmpty = false := by
    cases roster with
    | nil => exact absurd rfl h
    | cons a t => rfl
  simp only [recognize_face, hne, Bool.false_eq_true, if_false, hscan]
  by_cases hθ : SIMILARITY_THRESHOLD < distOf live (roster.get ⟨k, hk⟩)
  · rw [if_pos (EReal.coe_lt_coe_iff.mpr hθ), if_pos hθ]
  · rw [if_neg (fun hc => hθ (EReal.coe_lt_coe_iff.mp hc)), if_neg hθ]

theorem recognize_face_first_argmin_witness :
    ([⟨"A001", "Ana", [(0 : ℝ)]⟩] : List Magang) ≠ [] ∧
    (∃ (k : Nat) (hk : k < ([⟨"A001", "Ana", [(0 : ℝ)]⟩] : List Magang).length),
      (∀ m ∈ ([⟨"A001", "Ana", [(0 : ℝ)]⟩] : List Magang),
        distOf [(0 : ℝ)]
          (([⟨"A001", "Ana", [(0 : ℝ)]⟩] : List Magang).get ⟨k, hk⟩) ≤
          distOf [(0 : ℝ)] m) ∧
      (∀ j (hj : j < k), distOf [(0 : ℝ)]
          (([⟨"A001", "Ana", [(0 : ℝ)]⟩] : List Magang).get ⟨k, hk⟩) <
          distOf [(0 : ℝ)]
            (([⟨"A001", "Ana", [(0 : ℝ)]⟩] : List Magang).get ⟨j, hj.trans hk⟩)) ∧
      recognize_face [⟨"A001", "Ana", [(0 : ℝ)]⟩] [(0 : ℝ)] =
        (if SIMILARITY_THRESHOLD < distOf [(0 : ℝ)]
            (([⟨"A001", "Ana", [(0 : ℝ)]⟩] : List Magang).get ⟨k, hk⟩)
         then ("UNKNOWN", (distOf [(0 : ℝ)]
            (([⟨"A001", "Ana", [(0 : ℝ)]⟩] : List Magang).get ⟨k, hk⟩) : EReal),
            "UNKNOWN")
         else ((([⟨"A001", "Ana", [(0 : ℝ)]⟩] : List Magang).get ⟨k, hk⟩).id,
           (distOf [(0 : ℝ)]
             (([⟨"A001", "Ana", [(0 : ℝ)]⟩] : List Magang).get ⟨k, hk⟩) : EReal),
           (([⟨"A001", "Ana", [(0 : ℝ)]⟩] : List Magang).get ⟨k, hk⟩).name))) := by
  have h : ([⟨"A001", "Ana", [(0 : ℝ)]⟩] : List Magang) ≠ [] := by simp
  exact ⟨h, recognize_face_first_argmin [⟨"A001", "Ana", [(0 : ℝ)]⟩] [(0 : ℝ)] h⟩

/-! ## The attendance-recording claim (C1) -/

theorem dist_one_one : calculate_cosine_distance [(1 : ℝ)] [(1 : ℝ)] = 0 := by
  have hnorm : np_linalg_norm [(1 : ℝ)] = 1 := by
    simp [np_linalg_norm]
  simp only [calculate_cosine_distance, hnorm, np_dot]
  norm_num

theorem recognize_face_concrete :
    recognize_face [⟨"A001", "Ana", [(1 : ℝ)]⟩] [(1 : ℝ)] =
      ("A001", ((0 : ℝ) : EReal), "Ana") := by
  have hd : distOf [(1 : ℝ)] (⟨"A001", "Ana", [(1 : ℝ)]⟩ : Magang) = 0 :=
    dist_one_one
  simp only [recognize_face, List.isEmpty_cons, Bool.false_eq_true, if_false,
    List.foldl_cons, List.foldl_nil, scanStep, hd]
  rw [if_pos (show ((0 : ℝ) : EReal) <
    (("UNKNOWN", (⊤ : EReal), "UNKNOWN") : String × EReal × String).2.1 from
      EReal.coe_lt_top 0)]
  rw [if_neg (show ¬ ((SIMILARITY_THRESHOLD : EReal) <
    (("A001", ((0 : ℝ) : EReal), "Ana") : String × EReal × String).2.1) from by
      rw [show (("A001", ((0 : ℝ) : EReal), "Ana") :
        String × EReal × String).2.1 = ((0 : ℝ) : EReal) from rfl]
      rw [EReal.coe_lt_coe_iff]
      norm_num [SIMILARITY_THRESHOLD])]

/-- Claim C1 (refuted by the code): on a face the engine recognizes, the
endpoint does not append an attendance event at all.  Line 165 of
`server_main.py` calls `update_absensi_log` with only `(DATABASE_NAME,
id_magang, nama)`, omitting the required `log_time` parameter; the
resulting `TypeError` is swallowed by the generic `except` handler, which
returns HTTP 500 with the ledger unchanged — the Recognized outcome is
unreachable.  Concretely: roster `[("A001","Ana",[1.0])]`, live embedding
`[1.0]` is recognized as `A001` at distance 0, yet the endpoint yields
`serverError` and the empty ledger stays empty. -/
theorem absensi_endpoint_recognized_no_append :
    recognize_face [⟨"A001", "Ana", [(1 : ℝ)]⟩] [(1 : ℝ)] =
      ("A001", ((0 : ℝ) : EReal), "Ana") ∧
    ("A001" : String) ≠ "UNKNOWN" ∧
    absensi_endpoint [⟨"A001", "Ana", [(1 : ℝ)]⟩] [(1 : ℝ)] [] =
      (EndpointOutcome.serverError, []) := by
  refine ⟨recognize_face_concrete, by decide, ?_⟩
  simp only [absensi_endpoint, recognize_face_concrete]
  rw [if_pos (show (("A001", ((0 : ℝ) : EReal), "Ana") :
    String × EReal × String).1 ≠ "UNKNOWN" from by decide)]
  rfl

end Absensi
